import Mathlib

/-!
Verification of the version-tracker changelog/bug-tracker application.

The JavaScript source (src/src/App.jsx) is shallowly embedded below:
JS strings are Lean `String`s manipulated through their character lists
(so that every operation computes by kernel reduction), JS numbers that
the program uses as version components are `Nat`, timestamps (ISO strings
compared through `new Date`) are modelled as `Nat` instants, and the
opaque identifiers produced by `uuid()` (`crypto.randomUUID()` with a
`Math.random()` fallback) are modelled as a fresh-counter supply of `Nat`
identifiers, which captures the freshness the identifiers are relied on
for.  React state updates become explicit state passing; JSON documents
become an explicit `Json` tree, with `JSON.parse` failure modelled as the
absence of a tree (`Option Json`).
-/

namespace VersionTracker

/- ---------- JS string primitives, embedded on character lists ---------- -/

/-- Whitespace characters recognised by JS `String.prototype.trim`
(restricted to the ASCII ones, which is what the data contains). -/
def isWsChar (c : Char) : Bool :=
  c = ' ' || c = '\t' || c = '\n' || c = '\r' || c = '\x0b' || c = '\x0c'

/-- JS `s.trim()`. -/
def jsTrim (s : String) : String :=
  ⟨(((s.data.dropWhile isWsChar).reverse).dropWhile isWsChar).reverse⟩

/-- JS `s.toLowerCase()` (ASCII case folding). -/
def jsLower (s : String) : String :=
  ⟨s.data.map Char.toLower⟩

/-- Does the pattern occur at the head of the list? -/
def startsWithL : List Char → List Char → Bool
  | _, [] => true
  | [], _ :: _ => false
  | c :: s, d :: t => c = d && startsWithL s t

/-- Does the pattern occur anywhere in the list? -/
def containsL : List Char → List Char → Bool
  | [], pat => pat.isEmpty
  | c :: rest, pat => startsWithL (c :: rest) pat || containsL rest pat

/-- JS `s.includes(pat)`. -/
def jsIncludes (s pat : String) : Bool :=
  containsL s.data pat.data

/-- JS `tags.join(" ")`. -/
def joinSpace : List String → String
  | [] => ""
  | [s] => s
  | s :: rest => s ++ " " ++ joinSpace rest

/- ---------- Semver utility (parseSemver / bumpSemver) ---------- -/

structure Semver where
  maj : Nat
  mnr : Nat
  pat : Nat
deriving DecidableEq, Repr

/-- One-or-more ASCII digits, as required by each regex group. -/
def isDigits (s : List Char) : Bool :=
  !s.isEmpty && s.all Char.isDigit

/-- The numeric value of a digit string (the JS unary plus on a `\d+` match). -/
def digitsToNat (s : List Char) : Nat :=
  s.foldl (fun n c => n * 10 + (c.toNat - 48)) 0

/-- Split a character list at every dot, mirroring how the regex
groups are delimited by the literal dots. -/
def splitOnDotAux : List Char → List Char → List (List Char)
  | [], acc => [acc.reverse]
  | c :: rest, acc =>
      if c = '.' then acc.reverse :: splitOnDotAux rest []
      else splitOnDotAux rest (c :: acc)

def splitOnDot (s : List Char) : List (List Char) :=
  splitOnDotAux s []

/-- `parseSemver(label)`: trims the label, matches
the anchored pattern of an optional leading `v` followed by three
dot-separated digit groups, and returns the three numbers, or `none`
when the pattern does not match. -/
def parseSemver (label : String) : Option Semver :=
  let t := (jsTrim label).data
  let body := match t with
    | 'v' :: rest => rest
    | other => other
  match splitOnDot body with
  | [a, b, c] =>
      if isDigits a && isDigits b && isDigits c then
        some { maj := digitsToNat a, mnr := digitsToNat b, pat := digitsToNat c }
      else none
  | _ => none

/-- `bumpSemver(label, kind)`: parse (falling back to `0.0.0`), then bump
the component selected by `kind`, `patch` being the fallback branch. -/
def bumpSemver (label : String) (kind : String) : String :=
  let v := (parseSemver label).getD { maj := 0, mnr := 0, pat := 0 }
  if kind == "major" then "v" ++ Nat.repr (v.maj + 1) ++ ".0.0"
  else if kind == "minor" then "v" ++ Nat.repr v.maj ++ "." ++ Nat.repr (v.mnr + 1) ++ ".0"
  else "v" ++ Nat.repr v.maj ++ "." ++ Nat.repr v.mnr ++ "." ++ Nat.repr (v.pat + 1)

/-- The output shape `v{major}.{minor}.{patch}` named by the spec. -/
def semverFormat (a b c : Nat) : String :=
  "v" ++ Nat.repr a ++ "." ++ Nat.repr b ++ "." ++ Nat.repr c

/- ---------- Data model ---------- -/

structure Change where
  id : Nat
  type : String
  text : String
deriving DecidableEq, Repr

structure Bug where
  id : Nat
  title : String
  description : String
  severity : String
  status : String
  tags : List String
  createdAt : Nat
  updatedAt : Nat
deriving DecidableEq, Repr

structure Version where
  id : Nat
  label : String
  date : Nat
  summary : String
  notes : String
  changes : List Change
  bugs : List Bug
deriving DecidableEq, Repr

abbrev Collection := List Version

/- ---------- Partial-field patches (the JS spread merge) ---------- -/

/-- A partial Version object, as spread over a Version by
the JS code's spread of v followed by the patch: any present field wins. -/
structure VersionPatch where
  id : Option Nat
  label : Option String
  date : Option Nat
  summary : Option String
  notes : Option String
  changes : Option (List Change)
  bugs : Option (List Bug)
deriving DecidableEq

def emptyVPatch : VersionPatch := ⟨none, none, none, none, none, none, none⟩

/-- The spread of a Version followed by a patch. -/
def applyVersionPatch (v : Version) (p : VersionPatch) : Version :=
  { id := p.id.getD v.id, label := p.label.getD v.label, date := p.date.getD v.date,
    summary := p.summary.getD v.summary, notes := p.notes.getD v.notes,
    changes := p.changes.getD v.changes, bugs := p.bugs.getD v.bugs }

/-- A partial Bug object, spread over a Bug by updateBug. -/
structure BugPatch where
  id : Option Nat
  title : Option String
  description : Option String
  severity : Option String
  status : Option String
  tags : Option (List String)
  createdAt : Option Nat
  updatedAt : Option Nat
deriving DecidableEq

def emptyBPatch : BugPatch := ⟨none, none, none, none, none, none, none, none⟩

/-- The spread of a Bug followed by a patch. -/
def applyBugPatch (b : Bug) (p : BugPatch) : Bug :=
  { id := p.id.getD b.id, title := p.title.getD b.title,
    description := p.description.getD b.description,
    severity := p.severity.getD b.severity, status := p.status.getD b.status,
    tags := p.tags.getD b.tags, createdAt := p.createdAt.getD b.createdAt,
    updatedAt := p.updatedAt.getD b.updatedAt }

/- ---------- Version CRUD ----------
The uuid() generator is modelled as a fresh counter g : Nat threaded
through every operation that creates objects. -/

/-- `addVersion`: base label is the most recent version's label with the
falsy fallback of the empty string to a zero baseline, bumped as minor;
the new empty version is prepended. -/
def addVersion (c : Collection) (now : Nat) (g : Nat) : Collection × Nat :=
  let base := match c with
    | [] => "v0.0.0"
    | v :: _ => if v.label == "" then "v0.0.0" else v.label
  let nextLabel := bumpSemver base "minor"
  ({ id := g, label := nextLabel, date := now, summary := "", notes := "",
     changes := [], bugs := [] } :: c, g + 1)

/-- `updateVersion(id, patch)`: spread-merge the patch over every version
whose id matches. -/
def updateVersion (c : Collection) (id : Nat) (patch : VersionPatch) : Collection :=
  c.map (fun v => if v.id == id then applyVersionPatch v patch else v)

/-- `deleteVersion(id)`: drop the matching version. -/
def deleteVersion (c : Collection) (id : Nat) : Collection :=
  c.filter (fun v => v.id != id)

/-- Copy a change list, giving each copy a fresh id and keeping type/text. -/
def copyChanges : List Change → Nat → List Change × Nat
  | [], g => ([], g)
  | ch :: rest, g =>
      let r := copyChanges rest (g + 1)
      ({ ch with id := g } :: r.1, r.2)

/-- Copy a bug list, giving each copy a fresh id, status open, and
both timestamps set to now. -/
def copyBugs : List Bug → Nat → Nat → List Bug × Nat
  | [], _, g => ([], g)
  | b :: rest, now, g =>
      let r := copyBugs rest now (g + 1)
      ({ b with id := g, status := "open", createdAt := now, updatedAt := now } :: r.1, r.2)

/-- `duplicateVersion(id)`: deep-copy the found version (fresh id,
label suffixed with "-copy", date now, copied changes and bugs) and
prepend the copy; silently return when the id is not found. -/
def duplicateVersion (c : Collection) (id : Nat) (now : Nat) (g : Nat) : Collection × Nat :=
  match c.find? (fun x => x.id == id) with
  | none => (c, g)
  | some v =>
      let newId := g
      let rc := copyChanges v.changes (g + 1)
      let rb := copyBugs v.bugs now rc.2
      ({ v with
          id := newId, label := v.label ++ "-copy", date := now,
          changes := rc.1, bugs := rb.1 } :: c, rb.2)

/- ---------- Changes ---------- -/

/-- `addChange(vid, type, text)`: prepend a fresh change to the found
version's list; silently return when the version is not found.  The
source performs no emptiness check on the text here. -/
def addChange (c : Collection) (vid : Nat) (ty tx : String) (g : Nat) : Collection × Nat :=
  match c.find? (fun x => x.id == vid) with
  | none => (c, g)
  | some v =>
      (updateVersion c vid
        { emptyVPatch with changes := some ({ id := g, type := ty, text := tx } :: v.changes) },
       g + 1)

/-- The ChangeComposer UI path: the Add button only calls addChange when
the trimmed text is non-empty, and passes the trimmed text. -/
def composerAddChange (c : Collection) (vid : Nat) (ty tx : String) (g : Nat) :
    Collection × Nat :=
  if jsTrim tx == "" then (c, g) else addChange c vid ty (jsTrim tx) g

/-- `removeChange(vid, cid)`: filter the change out of the found version. -/
def removeChange (c : Collection) (vid cid : Nat) : Collection :=
  match c.find? (fun x => x.id == vid) with
  | none => c
  | some v =>
      updateVersion c vid
        { emptyVPatch with changes := some (v.changes.filter (fun ch => ch.id != cid)) }

/- ---------- Bugs ---------- -/

/-- The partial fields accepted by `addBug`. -/
structure BugInit where
  title : Option String
  description : Option String
  severity : Option String
  status : Option String
  tags : Option (List String)
deriving DecidableEq

/-- The JS falsy-or on an optional string field (absent or empty picks
the default). -/
def jsOrStr (o : Option String) (d : String) : String :=
  match o with
  | none => d
  | some s => if s == "" then d else s

/-- `addBug(vid, partial)`: build a bug with defaulted fields and both
timestamps now, and prepend it to the found version's bug list. -/
def addBug (c : Collection) (vid : Nat) (pf : BugInit) (now : Nat) (g : Nat) :
    Collection × Nat :=
  match c.find? (fun x => x.id == vid) with
  | none => (c, g)
  | some v =>
      let bug : Bug :=
        { id := g, title := jsOrStr pf.title "Untitled bug",
          description := jsOrStr pf.description "",
          severity := jsOrStr pf.severity "low",
          status := jsOrStr pf.status "open",
          tags := pf.tags.getD [], createdAt := now, updatedAt := now }
      (updateVersion c vid { emptyVPatch with bugs := some (bug :: v.bugs) }, g + 1)

/-- `updateBug(vid, bid, patch)`: spread-merge the patch over the matching
bug, with updatedAt then overwritten by now. -/
def updateBug (c : Collection) (vid bid : Nat) (p : BugPatch) (now : Nat) : Collection :=
  match c.find? (fun x => x.id == vid) with
  | none => c
  | some v =>
      updateVersion c vid
        { emptyVPatch with bugs := some (v.bugs.map (fun b =>
            if b.id == bid then { applyBugPatch b p with updatedAt := now } else b)) }

/-- `deleteBug(vid, bid)`: filter the bug out of the found version. -/
def deleteBug (c : Collection) (vid bid : Nat) : Collection :=
  match c.find? (fun x => x.id == vid) with
  | none => c
  | some v =>
      updateVersion c vid
        { emptyVPatch with bugs := some (v.bugs.filter (fun b => b.id != bid)) }

/- ---------- Query/Filter views ---------- -/

/-- A bug annotated with its owning version's id and label, as built by
the spread in allBugs. -/
structure FeedBug where
  bug : Bug
  versionId : Nat
  versionLabel : String
deriving DecidableEq

/-- `allBugs`: flatten every version's bugs with the version annotation. -/
def allBugs (c : Collection) : List FeedBug :=
  c.flatMap (fun v => v.bugs.map (fun b =>
    { bug := b, versionId := v.id, versionLabel := v.label }))

/-- The filter predicate of visibleGlobalBugs, applied to an annotated
bug, where q is already the trimmed and lowercased query. -/
def bugMatches (onlyOpen : Bool) (severity : String) (q : String) (fb : FeedBug) : Bool :=
  (if onlyOpen then fb.bug.status != "resolved" && fb.bug.status != "closed" else true) &&
  (severity == "all" || fb.bug.severity == severity) &&
  (q == "" ||
    jsIncludes (jsLower fb.bug.title) q ||
    jsIncludes (jsLower (joinSpace fb.bug.tags)) q ||
    jsIncludes (jsLower fb.bug.description) q)

/-- `visibleGlobalBugs`: filter allBugs by the three filters and sort by
updatedAt descending (a stable sort, as JS Array.prototype.sort is). -/
def visibleGlobalBugs (c : Collection) (query severity : String) (onlyOpen : Bool) :
    List FeedBug :=
  let q := jsLower (jsTrim query)
  ((allBugs c).filter (bugMatches onlyOpen severity q)).mergeSort
    (fun a b => decide (b.bug.updatedAt ≤ a.bug.updatedAt))

/- ---------- JSON documents, export, import ---------- -/

/-- A JSON value tree.  A document that fails `JSON.parse` is modelled
upstream as the absence of a tree. -/
inductive Json where
  | null : Json
  | num : Nat → Json
  | str : String → Json
  | arr : List Json → Json
  | obj : List (String × Json) → Json

/-- Field access on a JS object (`o.k`), `none` for a missing field or a
non-object. -/
def jsGetField : Json → String → Option Json
  | Json.obj fs, k => (fs.find? (fun p => p.1 == k)).map (fun p => p.2)
  | _, _ => none

/-- Serialization of a Change by `JSON.stringify`. -/
def encodeChange (ch : Change) : Json :=
  Json.obj [("id", Json.num ch.id), ("type", Json.str ch.type), ("text", Json.str ch.text)]

/-- Serialization of a Bug by `JSON.stringify`. -/
def encodeBug (b : Bug) : Json :=
  Json.obj [("id", Json.num b.id), ("title", Json.str b.title),
    ("description", Json.str b.description), ("severity", Json.str b.severity),
    ("status", Json.str b.status), ("tags", Json.arr (b.tags.map Json.str)),
    ("createdAt", Json.num b.createdAt), ("updatedAt", Json.num b.updatedAt)]

/-- Serialization of a Version by `JSON.stringify`. -/
def encodeVersion (v : Version) : Json :=
  Json.obj [("id", Json.num v.id), ("label", Json.str v.label),
    ("date", Json.num v.date), ("summary", Json.str v.summary),
    ("notes", Json.str v.notes),
    ("changes", Json.arr (v.changes.map encodeChange)),
    ("bugs", Json.arr (v.bugs.map encodeBug))]

/-- `doExport`: the JSON document written to the downloaded file. -/
def exportDoc (c : Collection) : Json :=
  Json.arr (c.map encodeVersion)

/-- Interpretation of a JSON value as a Change (how the program reads the
parsed value back). -/
def decodeChange (j : Json) : Option Change :=
  match jsGetField j "id", jsGetField j "type", jsGetField j "text" with
  | some (Json.num i), some (Json.str ty), some (Json.str tx) => some ⟨i, ty, tx⟩
  | _, _, _ => none

def decodeStr (j : Json) : Option String :=
  match j with
  | Json.str s => some s
  | _ => none

def decodeList (dec : Json → Option α) : List Json → Option (List α)
  | [] => some []
  | j :: rest =>
      match dec j, decodeList dec rest with
      | some x, some xs => some (x :: xs)
      | _, _ => none

/-- Interpretation of a JSON value as a Bug. -/
def decodeBug (j : Json) : Option Bug :=
  match jsGetField j "id", jsGetField j "title", jsGetField j "description",
      jsGetField j "severity", jsGetField j "status", jsGetField j "tags",
      jsGetField j "createdAt", jsGetField j "updatedAt" with
  | some (Json.num i), some (Json.str ti), some (Json.str de), some (Json.str se),
      some (Json.str st), some (Json.arr tg), some (Json.num ca), some (Json.num ua) =>
      match decodeList decodeStr tg with
      | some tags => some ⟨i, ti, de, se, st, tags, ca, ua⟩
      | none => none
  | _, _, _, _, _, _, _, _ => none

/-- Interpretation of a JSON value as a Version. -/
def decodeVersion (j : Json) : Option Version :=
  match jsGetField j "id", jsGetField j "label", jsGetField j "date",
      jsGetField j "summary", jsGetField j "notes", jsGetField j "changes",
      jsGetField j "bugs" with
  | some (Json.num i), some (Json.str la), some (Json.num da), some (Json.str su),
      some (Json.str no), some (Json.arr chs), some (Json.arr bgs) =>
      match decodeList decodeChange chs, decodeList decodeBug bgs with
      | some changes, some bugs => some ⟨i, la, da, su, no, changes, bugs⟩
      | _, _ => none
  | _, _, _, _, _, _, _ => none

/-- Interpretation of a JSON document as a Collection. -/
def decodeCollection (j : Json) : Option Collection :=
  match j with
  | Json.arr xs => decodeList decodeVersion xs
  | _ => none

/-- The state touched by `doImport`: the raw array value held as the
versions state, and the selected id (`data[0]?.id ?? null`). -/
structure ImportState where
  versionsDoc : Json
  selectedId : Option Json

/-- `data[0]?.id ?? null` on the imported array. -/
def jsSelectFirst (xs : List Json) : Option Json :=
  match xs with
  | [] => none
  | x :: _ =>
      match jsGetField x "id" with
      | some Json.null => none
      | o => o

/-- `doImport`: `none` stands for a document `JSON.parse` rejects; a
non-array tree or a parse failure alerts and leaves the state alone; an
array wholesale-replaces the versions state (no validation of entries)
and resets the selection.  The returned flag is whether the failure
alert was raised. -/
def doImport (doc : Option Json) (st : ImportState) : ImportState × Bool :=
  match doc with
  | none => (st, true)
  | some (Json.arr xs) =>
      ({ versionsDoc := Json.arr xs, selectedId := jsSelectFirst xs }, false)
  | some _ => (st, true)

/- ---------- Sequences of model operations ---------- -/

/-- One user-level mutation of the model, with the instant it happens at. -/
inductive Op where
  | opAddVersion (now : Nat)
  | opUpdateVersion (id : Nat) (p : VersionPatch)
  | opDeleteVersion (id : Nat)
  | opDuplicateVersion (id : Nat) (now : Nat)
  | opAddChange (vid : Nat) (ty tx : String)
  | opRemoveChange (vid cid : Nat)
  | opAddBug (vid : Nat) (pf : BugInit) (now : Nat)
  | opUpdateBug (vid bid : Nat) (p : BugPatch) (now : Nat)
  | opDeleteBug (vid bid : Nat)

/-- Run one operation on the collection and the id supply. -/
def stepOp (s : Collection × Nat) (op : Op) : Collection × Nat :=
  match op with
  | Op.opAddVersion now => addVersion s.1 now s.2
  | Op.opUpdateVersion id p => (updateVersion s.1 id p, s.2)
  | Op.opDeleteVersion id => (deleteVersion s.1 id, s.2)
  | Op.opDuplicateVersion id now => duplicateVersion s.1 id now s.2
  | Op.opAddChange vid ty tx => addChange s.1 vid ty tx s.2
  | Op.opRemoveChange vid cid => (removeChange s.1 vid cid, s.2)
  | Op.opAddBug vid pf now => addBug s.1 vid pf now s.2
  | Op.opUpdateBug vid bid p now => (updateBug s.1 vid bid p now, s.2)
  | Op.opDeleteBug vid bid => (deleteBug s.1 vid bid, s.2)

/-- Run a sequence of operations. -/
def runOps (s : Collection × Nat) (ops : List Op) : Collection × Nat :=
  ops.foldl stepOp s

/-- An operation whose version patch does not set the id field.  Every
updateVersion call site of the program builds such patches. -/
def goodOp : Op → Prop
  | Op.opUpdateVersion _ p => p.id = none
  | _ => True

/-- The id-supply invariant: version ids are pairwise distinct and below
the id counter (every generated id is genuinely fresh). -/
def idInv (s : Collection × Nat) : Prop :=
  (s.1.map Version.id).Nodup ∧ ∀ v ∈ s.1, v.id < s.2

/-- All identifiers (version, change and bug ids) occurring in a
collection. -/
def collIds (c : Collection) : List Nat :=
  c.flatMap (fun v => v.id :: (v.changes.map Change.id ++ v.bugs.map Bug.id))

/- ---------- Theorems ---------- -/

lemma fmtMajorAux (a : Nat) : "v" ++ Nat.repr a ++ ".0.0" = semverFormat a 0 0 := by
  simp only [semverFormat, String.append_assoc]
  congr 1

lemma fmtMinorAux (a b : Nat) :
    "v" ++ Nat.repr a ++ "." ++ Nat.repr b ++ ".0" = semverFormat a b 0 := by
  simp only [semverFormat, String.append_assoc]
  congr 3

/-- Claim C1: for every label string and bump kind, bump parses the label
(treating an unparseable label as 0.0.0) and returns major+1/minor 0/
patch 0 for major, minor+1/patch 0 for minor, and patch+1 for patch or
any unrecognized kind, always formatted as v{major}.{minor}.{patch};
in particular bump of v1.2.3 gives v1.2.4 / v1.3.0 / v2.0.0 and bump of
an unparseable label with kind patch gives v0.0.1. -/
theorem C1_bumpSemver_spec (label kind : String) (a b c : Nat) :
    (parseSemver label = some ⟨a, b, c⟩ →
        bumpSemver label "major" = semverFormat (a + 1) 0 0
      ∧ bumpSemver label "minor" = semverFormat a (b + 1) 0
      ∧ (kind ≠ "major" → kind ≠ "minor" →
          bumpSemver label kind = semverFormat a b (c + 1)))
  ∧ (parseSemver label = none →
        bumpSemver label "major" = semverFormat 1 0 0
      ∧ bumpSemver label "minor" = semverFormat 0 1 0
      ∧ (kind ≠ "major" → kind ≠ "minor" →
          bumpSemver label kind = semverFormat 0 0 1))
  ∧ bumpSemver "v1.2.3" "patch" = "v1.2.4"
  ∧ bumpSemver "v1.2.3" "minor" = "v1.3.0"
  ∧ bumpSemver "v1.2.3" "major" = "v2.0.0"
  ∧ bumpSemver "not-a-version" "patch" = "v0.0.1" := by
  refine ⟨fun h => ?_, fun h => ?_, by decide, by decide, by decide, by decide⟩
  · refine ⟨?_, ?_, ?_⟩
    · rw [← fmtMajorAux]
      simp [bumpSemver, h]
    · rw [← fmtMinorAux]
      simp [bumpSemver, h]
    · intro h1 h2
      simp [bumpSemver, h, semverFormat, h1, h2]
  · refine ⟨?_, ?_, ?_⟩
    · rw [← fmtMajorAux]
      simp [bumpSemver, h]
    · rw [← fmtMinorAux]
      simp [bumpSemver, h]
    · intro h1 h2
      simp [bumpSemver, h, semverFormat, h1, h2]

/-- Witness for C1 at the concrete label v0.4.9 and the unrecognized
kind weird. -/
theorem C1_bumpSemver_spec_witness :
    bumpSemver "v0.4.9" "weird" = semverFormat 0 4 10 :=
  ((C1_bumpSemver_spec "v0.4.9" "weird" 0 4 9).1 (by decide)).2.2 (by decide) (by decide)

/- Concrete sample data reused by the witnesses below. -/

def bugOpenX : Bug :=
  { id := 10, title := "Crash on load", description := "Boom", severity := "high",
    status := "open", tags := ["ui"], createdAt := 5, updatedAt := 9 }

def bugResolvedX : Bug :=
  { id := 11, title := "Old bug", description := "", severity := "low",
    status := "resolved", tags := [], createdAt := 1, updatedAt := 2 }

def verA : Version :=
  { id := 0, label := "v1.0.0", date := 3, summary := "first", notes := "",
    changes := [{ id := 20, type := "add", text := "thing" }], bugs := [bugOpenX] }

def verB : Version :=
  { id := 1, label := "v1.1.0", date := 4, summary := "second", notes := "",
    changes := [], bugs := [bugResolvedX] }

def sampleColl : Collection := [verA, verB]

lemma bugMatches_iff (oo : Bool) (sev q : String) (fb : FeedBug) :
    bugMatches oo sev q fb = true ↔
      ((oo = true → fb.bug.status ≠ "resolved" ∧ fb.bug.status ≠ "closed")
      ∧ (sev ≠ "all" → fb.bug.severity = sev)
      ∧ (q ≠ "" →
          (jsIncludes (jsLower fb.bug.title) q = true
          ∨ jsIncludes (jsLower (joinSpace fb.bug.tags)) q = true
          ∨ jsIncludes (jsLower fb.bug.description) q = true))) := by
  cases oo <;>
    simp [bugMatches, Bool.and_eq_true, Bool.or_eq_true, bne_iff_ne, beq_iff_eq,
      or_iff_not_imp_left, and_assoc]

/-- Claim C2: the cross-version aggregated bug feed contains exactly the
annotated bugs passing the open-only, severity and free-text filters, and
is sorted in descending order of updatedAt. -/
theorem C2_visibleGlobalBugs_spec (c : Collection) (query severity : String)
    (onlyOpen : Bool) :
    (∀ fb, fb ∈ visibleGlobalBugs c query severity onlyOpen ↔
      (fb ∈ allBugs c
      ∧ (onlyOpen = true → fb.bug.status ≠ "resolved" ∧ fb.bug.status ≠ "closed")
      ∧ (severity ≠ "all" → fb.bug.severity = severity)
      ∧ (jsLower (jsTrim query) ≠ "" →
          (jsIncludes (jsLower fb.bug.title) (jsLower (jsTrim query)) = true
          ∨ jsIncludes (jsLower (joinSpace fb.bug.tags)) (jsLower (jsTrim query)) = true
          ∨ jsIncludes (jsLower fb.bug.description) (jsLower (jsTrim query)) = true))))
  ∧ List.Pairwise (fun a b => b.bug.updatedAt ≤ a.bug.updatedAt)
      (visibleGlobalBugs c query severity onlyOpen) := by
  constructor
  · intro fb
    simp only [visibleGlobalBugs, List.mem_mergeSort, List.mem_filter]
    rw [bugMatches_iff]
  · have hs := @List.sorted_mergeSort FeedBug
      (fun a b => decide (b.bug.updatedAt ≤ a.bug.updatedAt))
      (by intro x y z hxy hyz
          simp only [decide_eq_true_eq] at hxy hyz ⊢
          exact le_trans hyz hxy)
      (by intro x y
          simp only [Bool.or_eq_true, decide_eq_true_eq]
          exact Nat.le_total y.bug.updatedAt x.bug.updatedAt)
      ((allBugs c).filter
        (bugMatches onlyOpen severity (jsLower (jsTrim query))))
    simp only [visibleGlobalBugs]
    exact hs.imp (fun h => of_decide_eq_true h)

/-- Witness for C2: on the sample collection the open bug is in the feed. -/
theorem C2_visibleGlobalBugs_spec_witness :
    { bug := bugOpenX, versionId := 0, versionLabel := "v1.0.0" : FeedBug }
      ∈ visibleGlobalBugs sampleColl "crash" "all" true :=
  ((C2_visibleGlobalBugs_spec sampleColl "crash" "all" true).1
    { bug := bugOpenX, versionId := 0, versionLabel := "v1.0.0" }).2 (by decide)

/-- Claim C3: a document that is not valid JSON (no tree) or whose
top-level value is not an array leaves the state completely unchanged and
raises the failure notification; an array wholesale-replaces the versions
state with no validation of inner entries, and the selection is reset
from the first entry (none when the array is empty). -/
theorem C3_doImport_spec (st : ImportState) :
    (doImport none st = (st, true))
  ∧ (∀ j, (∀ xs, j ≠ Json.arr xs) → doImport (some j) st = (st, true))
  ∧ (∀ xs, doImport (some (Json.arr xs)) st =
      ({ versionsDoc := Json.arr xs, selectedId := jsSelectFirst xs }, false))
  ∧ jsSelectFirst [] = none := by
  refine ⟨rfl, ?_, fun xs => rfl, rfl⟩
  intro j hj
  cases j with
  | null => rfl
  | num n => rfl
  | str s => rfl
  | arr xs => exact absurd rfl (hj xs)
  | obj fs => rfl

/-- Witness for C3: importing a non-array document over a concrete state
leaves it unchanged and alerts. -/
theorem C3_doImport_spec_witness :
    doImport (some (Json.num 3)) { versionsDoc := Json.arr [], selectedId := none } =
      ({ versionsDoc := Json.arr [], selectedId := none }, true) :=
  (C3_doImport_spec _).2.1 (Json.num 3) (fun _ h => Json.noConfusion h)

lemma decodeChange_encodeChange (ch : Change) :
    decodeChange (encodeChange ch) = some ch := by
  simp [decodeChange, encodeChange, jsGetField, List.find?]

lemma decodeList_map_eq (dec : Json → Option α) (f : α → Json)
    (h : ∀ x, dec (f x) = some x) (l : List α) :
    decodeList dec (l.map f) = some l := by
  induction l with
  | nil => rfl
  | cons x xs ih => simp [decodeList, h x, ih]

lemma decodeBug_encodeBug (b : Bug) : decodeBug (encodeBug b) = some b := by
  simp [decodeBug, encodeBug, jsGetField, List.find?,
    decodeList_map_eq decodeStr Json.str (fun s => rfl)]

lemma decodeVersion_encodeVersion (v : Version) :
    decodeVersion (encodeVersion v) = some v := by
  simp [decodeVersion, encodeVersion, jsGetField, List.find?,
    decodeList_map_eq decodeChange encodeChange decodeChange_encodeChange,
    decodeList_map_eq decodeBug encodeBug decodeBug_encodeBug]

lemma decode_exportDoc (c : Collection) : decodeCollection (exportDoc c) = some c := by
  simp [decodeCollection, exportDoc,
    decodeList_map_eq decodeVersion encodeVersion decodeVersion_encodeVersion]

/-- Claim C4: exporting a collection and immediately importing the exact
exported document succeeds without alert, stores exactly the exported
document, selects the first version's id, and the stored document read
back as a collection is identical to the original (same ids, fields and
order). -/
theorem C4_export_import_roundtrip (c : Collection) (st : ImportState) :
    doImport (some (exportDoc c)) st =
      ({ versionsDoc := exportDoc c,
         selectedId := (c.head?).map (fun v => Json.num v.id) }, false)
  ∧ decodeCollection (doImport (some (exportDoc c)) st).1.versionsDoc = some c := by
  have hsel : jsSelectFirst (c.map encodeVersion) =
      (c.head?).map (fun v => Json.num v.id) := by
    cases c with
    | nil => rfl
    | cons v vs => simp [jsSelectFirst, encodeVersion, jsGetField, List.find?]
  constructor
  · simp only [doImport, exportDoc]
    rw [hsel]
  · simp only [doImport, exportDoc]
    exact decode_exportDoc c

/- ---------- Shared lemmas about find? and updateVersion ---------- -/

lemma find?_none_of_no_id (c : Collection) (vid : Nat)
    (h : ∀ u ∈ c, u.id ≠ vid) : c.find? (fun x => x.id == vid) = none := by
  rw [List.find?_eq_none]
  intro x hx
  simp [h x hx]

lemma find?_id_mem {c : Collection} {vid : Nat} {v : Version}
    (h : c.find? (fun x => x.id == vid) = some v) : v ∈ c ∧ v.id = vid := by
  refine ⟨List.mem_of_find?_eq_some h, ?_⟩
  have := List.find?_some h
  simpa using this

lemma updateVersion_no_match (c : Collection) (vid : Nat) (p : VersionPatch)
    (h : ∀ u ∈ c, u.id ≠ vid) : updateVersion c vid p = c := by
  unfold updateVersion
  have he : ∀ u ∈ c, (if u.id == vid then applyVersionPatch u p else u) = u := by
    intro u hu
    simp [h u hu]
  rw [List.map_congr_left he]
  exact List.map_id' c

lemma updateVersion_map_id (c : Collection) (vid : Nat) (p : VersionPatch)
    (hp : p.id = none) :
    (updateVersion c vid p).map Version.id = c.map Version.id := by
  unfold updateVersion
  rw [List.map_map]
  apply List.map_congr_left
  intro u hu
  by_cases h : u.id = vid <;> simp [Function.comp, h, applyVersionPatch, hp]

lemma updateVersion_mem_other {c : Collection} {vid : Nat} (p : VersionPatch)
    {u : Version} (hu : u ∈ c) (hne : u.id ≠ vid) : u ∈ updateVersion c vid p := by
  unfold updateVersion
  have : (if u.id == vid then applyVersionPatch u p else u) = u := by simp [hne]
  exact this ▸ List.mem_map_of_mem _ hu

lemma updateVersion_mem_match {c : Collection} {vid : Nat} (p : VersionPatch)
    {v : Version} (hv : v ∈ c) (hid : v.id = vid) :
    applyVersionPatch v p ∈ updateVersion c vid p := by
  unfold updateVersion
  have : (if v.id == vid then applyVersionPatch v p else v) = applyVersionPatch v p := by
    simp [hid]
  exact this ▸ List.mem_map_of_mem _ hv

lemma updateVersion_self {c : Collection} {v : Version} {vid : Nat} (p : VersionPatch)
    (hn : (c.map Version.id).Nodup) (hv : v ∈ c) (hid : v.id = vid)
    (happ : applyVersionPatch v p = v) : updateVersion c vid p = c := by
  unfold updateVersion
  have he : ∀ u ∈ c, (if u.id == vid then applyVersionPatch u p else u) = u := by
    intro u hu
    by_cases h : u.id = vid
    · have huv : u = v := List.inj_on_of_nodup_map hn hu hv (by rw [h, hid])
      subst huv
      simp [h, happ]
    · simp [h]
  rw [List.map_congr_left he]
  exact List.map_id' c

/- ---------- Claim C5 ---------- -/

/-- Claim C5 counterexample: addChange with an existing version id and an
empty text is not a no-op; the source function performs no emptiness
check, so the change with empty text is prepended. -/
theorem C5_counterexample : (addChange sampleColl 0 "add" "" 50).1 ≠ sampleColl := by
  decide

/-- Claim C5 as amended: addChange prepends a fresh Change with the given
type and text to the target version whenever the version exists —
regardless of the text — and is a no-op exactly when no version has the
given id; the empty/whitespace-text no-op is enforced one level up by the
composer, which calls addChange only when the trimmed text is non-empty. -/
theorem C5_addChange_amended (c : Collection) (vid : Nat) (ty tx : String)
    (g : Nat) (v : Version) :
    ((∀ u ∈ c, u.id ≠ vid) → addChange c vid ty tx g = (c, g))
  ∧ (c.find? (fun x => x.id == vid) = some v →
      (addChange c vid ty tx g).2 = g + 1
    ∧ (addChange c vid ty tx g).1.map Version.id = c.map Version.id
    ∧ (∀ u ∈ c, u.id ≠ vid → u ∈ (addChange c vid ty tx g).1)
    ∧ { v with changes := { id := g, type := ty, text := tx } :: v.changes }
        ∈ (addChange c vid ty tx g).1)
  ∧ (jsTrim tx = "" → composerAddChange c vid ty tx g = (c, g)) := by
  refine ⟨fun h => ?_, fun hfind => ?_, fun htrim => ?_⟩
  · simp only [addChange, find?_none_of_no_id c vid h]
  · obtain ⟨hv, hid⟩ := find?_id_mem hfind
    simp only [addChange, hfind]
    refine ⟨by trivial, updateVersion_map_id _ _ _ rfl, ?_, ?_⟩
    · intro u hu hne
      exact updateVersion_mem_other _ hu hne
    · exact updateVersion_mem_match _ hv hid
  · unfold composerAddChange
    simp [htrim]

/-- Witness for the amended C5 at a concrete collection: the version with
id 0 exists, so the change is prepended and the other version survives. -/
theorem C5_addChange_amended_witness :
    { verA with changes := { id := 50, type := "fix", text := "typo" } :: verA.changes }
      ∈ (addChange sampleColl 0 "fix" "typo" 50).1
  ∧ composerAddChange sampleColl 0 "fix" "  " 50 = (sampleColl, 50) := by
  have h := C5_addChange_amended sampleColl 0 "fix" "typo" 50 verA
  have h2 := C5_addChange_amended sampleColl 0 "fix" "  " 50 verA
  exact ⟨(h.2.1 (by decide)).2.2.2, h2.2.2 (by decide)⟩

/- ---------- Claim C6 ---------- -/

/-- Claim C6: when the version and bug exist, updateBug merges the patch
into that bug field by field and sets its updatedAt to now (which is ≥
the previous updatedAt under a non-decreasing clock), leaves every other
version untouched and preserves the version ids; when the version or the
bug does not exist it is a no-op. -/
theorem C6_updateBug_spec (c : Collection) (vid bid : Nat) (p : BugPatch)
    (now : Nat) (v : Version) :
    ((∀ u ∈ c, u.id ≠ vid) → updateBug c vid bid p now = c)
  ∧ (c.find? (fun x => x.id == vid) = some v →
      ((c.map Version.id).Nodup → (∀ b ∈ v.bugs, b.id ≠ bid) →
        updateBug c vid bid p now = c)
    ∧ (updateBug c vid bid p now).map Version.id = c.map Version.id
    ∧ (∀ u ∈ c, u.id ≠ vid → u ∈ updateBug c vid bid p now)
    ∧ { v with bugs := v.bugs.map (fun b =>
          if b.id == bid then
            { id := p.id.getD b.id, title := p.title.getD b.title,
              description := p.description.getD b.description,
              severity := p.severity.getD b.severity,
              status := p.status.getD b.status, tags := p.tags.getD b.tags,
              createdAt := p.createdAt.getD b.createdAt, updatedAt := now }
          else b) } ∈ updateBug c vid bid p now
    ∧ (∀ b ∈ v.bugs, b.updatedAt ≤ now →
        b.updatedAt ≤ ({ applyBugPatch b p with updatedAt := now }).updatedAt)) := by
  refine ⟨fun h => ?_, fun hfind => ?_⟩
  · simp only [updateBug, find?_none_of_no_id c vid h]
  · obtain ⟨hv, hid⟩ := find?_id_mem hfind
    refine ⟨fun hn hmiss => ?_, ?_, ?_, ?_, ?_⟩
    · simp only [updateBug, hfind]
      have hb : v.bugs.map (fun b =>
          if b.id == bid then { applyBugPatch b p with updatedAt := now } else b)
          = v.bugs := by
        have he : ∀ b ∈ v.bugs, (if b.id == bid
            then { applyBugPatch b p with updatedAt := now } else b) = b := by
          intro b hb
          simp [hmiss b hb]
        rw [List.map_congr_left he]
        exact List.map_id' v.bugs
      rw [hb]
      exact updateVersion_self _ hn hv hid rfl
    · simp only [updateBug, hfind]
      exact updateVersion_map_id _ _ _ rfl
    · intro u hu hne
      simp only [updateBug, hfind]
      exact updateVersion_mem_other _ hu hne
    · simp only [updateBug, hfind]
      exact updateVersion_mem_match _ hv hid
    · intro b _ hle
      simpa using hle

/-- Witness for C6 at the sample collection: patching the open bug's
status in version 0 yields the merged bug with updatedAt refreshed. -/
theorem C6_updateBug_spec_witness :
    { verA with bugs := [{ bugOpenX with status := "resolved", updatedAt := 12 }] }
      ∈ updateBug sampleColl 0 10 { emptyBPatch with status := some "resolved" } 12 := by
  have h := C6_updateBug_spec sampleColl 0 10
    { emptyBPatch with status := some "resolved" } 12 verA
  have hm := (h.2 (by decide)).2.2.2.1
  revert hm
  decide

/- ---------- Claim C7 ---------- -/

lemma copyChanges_spec (l : List Change) (g : Nat) :
    (copyChanges l g).2 = g + l.length
  ∧ (copyChanges l g).1.map Change.id = List.range' g l.length
  ∧ (copyChanges l g).1.map Change.type = l.map Change.type
  ∧ (copyChanges l g).1.map Change.text = l.map Change.text := by
  induction l generalizing g with
  | nil => simp [copyChanges]
  | cons ch rest ih =>
      obtain ⟨h1, h2, h3, h4⟩ := ih (g + 1)
      refine ⟨?_, ?_, ?_, ?_⟩ <;> simp [copyChanges, h1, h2, h3, h4, List.range']
      omega

lemma copyBugs_spec (l : List Bug) (now g : Nat) :
    (copyBugs l now g).2 = g + l.length
  ∧ (copyBugs l now g).1.map Bug.id = List.range' g l.length
  ∧ (copyBugs l now g).1.map Bug.title = l.map Bug.title
  ∧ (copyBugs l now g).1.map Bug.description = l.map Bug.description
  ∧ (copyBugs l now g).1.map Bug.severity = l.map Bug.severity
  ∧ (copyBugs l now g).1.map Bug.tags = l.map Bug.tags
  ∧ (∀ b ∈ (copyBugs l now g).1,
      b.status = "open" ∧ b.createdAt = now ∧ b.updatedAt = now) := by
  induction l generalizing g with
  | nil => simp [copyBugs]
  | cons b rest ih =>
      obtain ⟨h1, h2, h3, h4, h5, h6, h7⟩ := ih (g + 1)
      refine ⟨?_, ?_, ?_, ?_, ?_, ?_, ?_⟩ <;>
        simp [copyBugs, h1, h2, h3, h4, h5, h6, List.range']
      · omega
      · exact h7

lemma mem_collIds_of_mem {c : Collection} {v : Version} (hv : v ∈ c) :
    v.id ∈ collIds c := by
  simp only [collIds, List.mem_flatMap]
  exact ⟨v, hv, by simp⟩

/-- Claim C7: duplicateVersion prepends a copy of the found version with a
fresh id distinct from the source's, the label suffixed, the date set to
now, changes copied with fresh ids but the same type and text, and bugs
copied with fresh ids, status reset to open and both timestamps reset to
now; with no matching id the state is unchanged. -/
theorem C7_duplicateVersion_spec (c : Collection) (id now g : Nat) (v : Version) :
    ((∀ u ∈ c, u.id ≠ id) → duplicateVersion c id now g = (c, g))
  ∧ (c.find? (fun x => x.id == id) = some v → (∀ i ∈ collIds c, i < g) →
      ∃ copy, (duplicateVersion c id now g).1 = copy :: c
      ∧ copy.id ∉ collIds c
      ∧ copy.id ≠ v.id
      ∧ copy.label = v.label ++ "-copy"
      ∧ copy.date = now
      ∧ copy.summary = v.summary
      ∧ copy.notes = v.notes
      ∧ copy.changes.map Change.type = v.changes.map Change.type
      ∧ copy.changes.map Change.text = v.changes.map Change.text
      ∧ copy.bugs.map Bug.title = v.bugs.map Bug.title
      ∧ copy.bugs.map Bug.description = v.bugs.map Bug.description
      ∧ copy.bugs.map Bug.severity = v.bugs.map Bug.severity
      ∧ copy.bugs.map Bug.tags = v.bugs.map Bug.tags
      ∧ (∀ b ∈ copy.bugs, b.status = "open" ∧ b.createdAt = now ∧ b.updatedAt = now)
      ∧ (copy.id :: (copy.changes.map Change.id ++ copy.bugs.map Bug.id)).Nodup
      ∧ (∀ i, i ∈ copy.id :: (copy.changes.map Change.id ++ copy.bugs.map Bug.id) →
          i ∉ collIds c)) := by
  refine ⟨fun h => ?_, fun hfind hbound => ?_⟩
  · simp only [duplicateVersion, find?_none_of_no_id c id h]
  · obtain ⟨hv, hvid⟩ := find?_id_mem hfind
    obtain ⟨hc1, hc2, hc3, hc4⟩ := copyChanges_spec v.changes (g + 1)
    obtain ⟨hb1, hb2, hb3, hb4, hb5, hb6, hb7⟩ :=
      copyBugs_spec v.bugs now (copyChanges v.changes (g + 1)).2
    have hvlt : v.id < g := hbound v.id (mem_collIds_of_mem hv)
    refine ⟨{ v with
        id := g, label := v.label ++ "-copy", date := now,
        changes := (copyChanges v.changes (g + 1)).1,
        bugs := (copyBugs v.bugs now (copyChanges v.changes (g + 1)).2).1 },
      ?_, ?_, ?_, rfl, rfl, rfl, rfl, hc3, hc4, hb3, hb4, hb5, hb6, hb7, ?_, ?_⟩
    · simp only [duplicateVersion, hfind]
    · intro hmem
      exact absurd (hbound g hmem) (by omega)
    · show g ≠ v.id
      omega
    · have hids : (g :: ((copyChanges v.changes (g + 1)).1.map Change.id
          ++ (copyBugs v.bugs now (copyChanges v.changes (g + 1)).2).1.map Bug.id))
          = List.range' g (v.bugs.length + v.changes.length + 1) := by
        rw [hc2, hb2, hc1]
        have := List.range'_append_1 (g + 1) v.changes.length v.bugs.length
        rw [this]
        have : List.range' g (v.bugs.length + v.changes.length + 1)
            = g :: List.range' (g + 1) (v.bugs.length + v.changes.length) := rfl
        rw [this]
      simp only [hids]
      exact List.nodup_range' _ _
    · intro i hi hic
      have hlt := hbound i hic
      have hge : g ≤ i := by
        rcases List.mem_cons.mp hi with h | h
        · have hig : i = g := h
          omega
        · rcases List.mem_append.mp h with h | h
          · rw [hc2] at h
            have := List.mem_range'_1.mp h
            omega
          · rw [hb2] at h
            have := List.mem_range'_1.mp h
            rw [hc1] at this
            omega
      omega

/-- Witness for C7 at the sample collection: duplicating version 0 with
counter 100 prepends a fresh copy. -/
theorem C7_duplicateVersion_spec_witness :
    ∃ copy, (duplicateVersion sampleColl 0 40 100).1 = copy :: sampleColl
      ∧ copy.id ∉ collIds sampleColl
      ∧ copy.id ≠ verA.id
      ∧ copy.label = verA.label ++ "-copy"
      ∧ copy.date = 40
      ∧ copy.summary = verA.summary
      ∧ copy.notes = verA.notes
      ∧ copy.changes.map Change.type = verA.changes.map Change.type
      ∧ copy.changes.map Change.text = verA.changes.map Change.text
      ∧ copy.bugs.map Bug.title = verA.bugs.map Bug.title
      ∧ copy.bugs.map Bug.description = verA.bugs.map Bug.description
      ∧ copy.bugs.map Bug.severity = verA.bugs.map Bug.severity
      ∧ copy.bugs.map Bug.tags = verA.bugs.map Bug.tags
      ∧ (∀ b ∈ copy.bugs, b.status = "open" ∧ b.createdAt = 40 ∧ b.updatedAt = 40)
      ∧ (copy.id :: (copy.changes.map Change.id ++ copy.bugs.map Bug.id)).Nodup
      ∧ (∀ i, i ∈ copy.id :: (copy.changes.map Change.id ++ copy.bugs.map Bug.id) →
          i ∉ collIds sampleColl) :=
  (C7_duplicateVersion_spec sampleColl 0 40 100 verA).2 (by decide) (by decide)

/- ---------- Claim C8 ---------- -/

/-- Claim C8: after deleteVersion no version with the deleted id remains,
the other versions survive unchanged in their original order, and none of
the deleted version's bugs appears in the aggregated feed (or in the
unfiltered aggregation) computed from the result. -/
theorem C8_deleteVersion_spec (c : Collection) (id : Nat) (q sev : String)
    (oo : Bool) :
    (∀ v, v ∈ deleteVersion c id ↔ (v ∈ c ∧ v.id ≠ id))
  ∧ List.Sublist (deleteVersion c id) c
  ∧ (∀ fb, fb ∈ allBugs (deleteVersion c id) → fb.versionId ≠ id)
  ∧ (∀ fb, fb ∈ visibleGlobalBugs (deleteVersion c id) q sev oo →
      fb.versionId ≠ id) := by
  have hmem : ∀ v, v ∈ deleteVersion c id ↔ (v ∈ c ∧ v.id ≠ id) := by
    intro v
    simp [deleteVersion, List.mem_filter]
  have hall : ∀ fb, fb ∈ allBugs (deleteVersion c id) → fb.versionId ≠ id := by
    intro fb hfb
    simp only [allBugs, List.mem_flatMap, List.mem_map] at hfb
    obtain ⟨v, hv, b, _, hb⟩ := hfb
    have hvne := ((hmem v).mp hv).2
    rw [← hb]
    exact hvne
  refine ⟨hmem, List.filter_sublist c, hall, ?_⟩
  intro fb hfb
  apply hall
  simp only [visibleGlobalBugs, List.mem_mergeSort, List.mem_filter] at hfb
  exact hfb.1

/-- Witness for C8: after deleting version 0 of the sample collection the
remaining aggregated entry is annotated with version 1, not 0. -/
theorem C8_deleteVersion_spec_witness :
    { bug := bugResolvedX, versionId := 1, versionLabel := "v1.1.0" : FeedBug }.versionId
      ≠ 0 :=
  (C8_deleteVersion_spec sampleColl 0 "" "all" false).2.2.1
    { bug := bugResolvedX, versionId := 1, versionLabel := "v1.1.0" } (by decide)

/- ---------- Claim C9 ---------- -/

/-- Claim C9: every model operation called with a version id that matches
no existing version — and removeChange, updateBug and deleteBug called
with a change/bug id that matches nothing inside the found version — is a
silent no-op returning the collection (and the id supply) unchanged. -/
theorem C9_missing_id_noop (c : Collection) (vid cid bid g now : Nat)
    (vp : VersionPatch) (bp : BugPatch) (bi : BugInit) (ty tx : String)
    (v : Version) :
    ((∀ u ∈ c, u.id ≠ vid) →
        updateVersion c vid vp = c
      ∧ deleteVersion c vid = c
      ∧ duplicateVersion c vid now g = (c, g)
      ∧ addChange c vid ty tx g = (c, g)
      ∧ removeChange c vid cid = c
      ∧ addBug c vid bi now g = (c, g)
      ∧ updateBug c vid bid bp now = c
      ∧ deleteBug c vid bid = c)
  ∧ ((c.map Version.id).Nodup → c.find? (fun x => x.id == vid) = some v →
        ((∀ ch ∈ v.changes, ch.id ≠ cid) → removeChange c vid cid = c)
      ∧ ((∀ b ∈ v.bugs, b.id ≠ bid) → updateBug c vid bid bp now = c)
      ∧ ((∀ b ∈ v.bugs, b.id ≠ bid) → deleteBug c vid bid = c)) := by
  refine ⟨fun h => ?_, fun hn hfind => ?_⟩
  · have hnone := find?_none_of_no_id c vid h
    refine ⟨updateVersion_no_match c vid vp h, ?_, ?_, ?_, ?_, ?_, ?_, ?_⟩
    · apply List.filter_eq_self.mpr
      intro u hu
      simp [h u hu]
    · simp only [duplicateVersion, hnone]
    · simp only [addChange, hnone]
    · simp only [removeChange, hnone]
    · simp only [addBug, hnone]
    · simp only [updateBug, hnone]
    · simp only [deleteBug, hnone]
  · obtain ⟨hv, hid⟩ := find?_id_mem hfind
    refine ⟨fun hch => ?_, fun hb => ?_, fun hb => ?_⟩
    · simp only [removeChange, hfind]
      have he : v.changes.filter (fun ch => ch.id != cid) = v.changes := by
        apply List.filter_eq_self.mpr
        intro ch hc
        simp [hch ch hc]
      rw [he]
      exact updateVersion_self _ hn hv hid rfl
    · simp only [updateBug, hfind]
      have he : v.bugs.map (fun b =>
          if b.id == bid then { applyBugPatch b bp with updatedAt := now } else b)
          = v.bugs := by
        have hc : ∀ b ∈ v.bugs, (if b.id == bid
            then { applyBugPatch b bp with updatedAt := now } else b) = b := by
          intro b hbb
          simp [hb b hbb]
        rw [List.map_congr_left hc]
        exact List.map_id' v.bugs
      rw [he]
      exact updateVersion_self _ hn hv hid rfl
    · simp only [deleteBug, hfind]
      have he : v.bugs.filter (fun b => b.id != bid) = v.bugs := by
        apply List.filter_eq_self.mpr
        intro b hbb
        simp [hb b hbb]
      rw [he]
      exact updateVersion_self _ hn hv hid rfl

/-- Witness for C9 at the sample collection: id 99 matches no version, so
deleteVersion is a no-op, and removing the nonexistent change 77 from the
existing version 0 is also a no-op. -/
theorem C9_missing_id_noop_witness :
    deleteVersion sampleColl 99 = sampleColl
  ∧ removeChange sampleColl 0 77 = sampleColl := by
  have h := C9_missing_id_noop sampleColl 99 77 0 5 6 emptyVPatch emptyBPatch
    ⟨none, none, none, none, none⟩ "add" "x" verA
  have h2 := C9_missing_id_noop sampleColl 0 77 0 5 6 emptyVPatch emptyBPatch
    ⟨none, none, none, none, none⟩ "add" "x" verA
  exact ⟨(h.1 (by decide)).2.1, (h2.2 (by decide) (by decide)).1 (by decide)⟩

/- ---------- Claim C10 ---------- -/

/-- The version-id ledger of a collection. -/
def versionIds (c : Collection) : List Nat :=
  c.map Version.id

/-- How one operation is allowed to transform the version-id ledger:
update-style operations leave it unchanged (every surviving version keeps
its id), deleteVersion removes exactly the deleted id, and the two
creating operations prepend the freshly generated id. -/
def idLedger (s : Collection × Nat) (op : Op) : Prop :=
  match op with
  | Op.opAddVersion _ => versionIds (stepOp s op).1 = s.2 :: versionIds s.1
  | Op.opUpdateVersion _ _ => versionIds (stepOp s op).1 = versionIds s.1
  | Op.opDeleteVersion vid =>
      versionIds (stepOp s op).1 = (versionIds s.1).filter (fun i => i != vid)
  | Op.opDuplicateVersion vid _ =>
      versionIds (stepOp s op).1 =
        if (s.1.find? (fun x => x.id == vid)).isSome
        then s.2 :: versionIds s.1 else versionIds s.1
  | _ => versionIds (stepOp s op).1 = versionIds s.1

lemma map_id_filter_comm (c : Collection) (vid : Nat) :
    (c.filter (fun v => v.id != vid)).map Version.id
      = (c.map Version.id).filter (fun i => i != vid) := by
  induction c with
  | nil => rfl
  | cons v rest ih =>
      by_cases h : v.id = vid <;> simp [List.filter_cons, h, ih]

lemma stepOp_ledger (s : Collection × Nat) (op : Op) (hg : goodOp op) :
    idLedger s op := by
  cases op with
  | opAddVersion now => simp [idLedger, stepOp, addVersion, versionIds]
  | opUpdateVersion vid p =>
      simp only [idLedger, stepOp, versionIds]
      exact updateVersion_map_id s.1 vid p hg
  | opDeleteVersion vid =>
      simp only [idLedger, stepOp, deleteVersion, versionIds]
      exact map_id_filter_comm s.1 vid
  | opDuplicateVersion vid now =>
      simp only [idLedger, stepOp, duplicateVersion, versionIds]
      cases hfind : s.1.find? (fun x => x.id == vid) with
      | none => simp
      | some v => simp
  | opAddChange vid ty tx =>
      simp only [idLedger, stepOp, addChange, versionIds]
      cases hfind : s.1.find? (fun x => x.id == vid) with
      | none => rfl
      | some v => exact updateVersion_map_id s.1 vid _ rfl
  | opRemoveChange vid cid =>
      simp only [idLedger, stepOp, removeChange, versionIds]
      cases hfind : s.1.find? (fun x => x.id == vid) with
      | none => rfl
      | some v => exact updateVersion_map_id s.1 vid _ rfl
  | opAddBug vid pf now =>
      simp only [idLedger, stepOp, addBug, versionIds]
      cases hfind : s.1.find? (fun x => x.id == vid) with
      | none => rfl
      | some v => exact updateVersion_map_id s.1 vid _ rfl
  | opUpdateBug vid bid p now =>
      simp only [idLedger, stepOp, updateBug, versionIds]
      cases hfind : s.1.find? (fun x => x.id == vid) with
      | none => rfl
      | some v => exact updateVersion_map_id s.1 vid _ rfl
  | opDeleteBug vid bid =>
      simp only [idLedger, stepOp, deleteBug, versionIds]
      cases hfind : s.1.find? (fun x => x.id == vid) with
      | none => rfl
      | some v => exact updateVersion_map_id s.1 vid _ rfl

lemma stepOp_gen_mono (s : Collection × Nat) (op : Op) : s.2 ≤ (stepOp s op).2 := by
  cases op with
  | opAddVersion now => simp [stepOp, addVersion]
  | opUpdateVersion vid p => exact le_refl _
  | opDeleteVersion vid => exact le_refl _
  | opDuplicateVersion vid now =>
      simp only [stepOp, duplicateVersion]
      cases hfind : s.1.find? (fun x => x.id == vid) with
      | none => exact le_refl _
      | some v =>
          have h1 := (copyChanges_spec v.changes (s.2 + 1)).1
          have h2 := (copyBugs_spec v.bugs now (copyChanges v.changes (s.2 + 1)).2).1
          rw [h2, h1]
          omega
  | opAddChange vid ty tx =>
      simp only [stepOp, addChange]
      cases hfind : s.1.find? (fun x => x.id == vid) with
      | none => exact le_refl _
      | some v => simp
  | opRemoveChange vid cid => exact le_refl _
  | opAddBug vid pf now =>
      simp only [stepOp, addBug]
      cases hfind : s.1.find? (fun x => x.id == vid) with
      | none => exact le_refl _
      | some v => simp
  | opUpdateBug vid bid p now => exact le_refl _
  | opDeleteBug vid bid => exact le_refl _

lemma stepOp_inv (s : Collection × Nat) (op : Op) (hg : goodOp op)
    (hinv : idInv s) : idInv (stepOp s op) := by
  obtain ⟨hnd, hbound⟩ := hinv
  have hled := stepOp_ledger s op hg
  have hmono := stepOp_gen_mono s op
  have hboundIds : ∀ i ∈ versionIds s.1, i < s.2 := by
    intro i hi
    simp only [versionIds, List.mem_map] at hi
    obtain ⟨u, hu, hui⟩ := hi
    exact hui ▸ hbound u hu
  have key : ∀ ids2, versionIds (stepOp s op).1 = ids2 →
      (ids2.Nodup ∧ ∀ i ∈ ids2, i < (stepOp s op).2) → idInv (stepOp s op) := by
    intro ids2 heq hprops
    constructor
    · show (List.map Version.id (stepOp s op).1).Nodup
      rw [show List.map Version.id (stepOp s op).1 = versionIds (stepOp s op).1 from rfl,
        heq]
      exact hprops.1
    · intro u hu
      apply hprops.2
      rw [← heq]
      simp only [versionIds, List.mem_map]
      exact ⟨u, hu, rfl⟩
  cases op with
  | opAddVersion now =>
      apply key _ hled
      have hstep : (stepOp s (Op.opAddVersion now)).2 = s.2 + 1 := by
        simp [stepOp, addVersion]
      rw [hstep]
      refine ⟨List.nodup_cons.mpr ⟨fun hmem => absurd (hboundIds s.2 hmem) (by omega), hnd⟩, ?_⟩
      intro i hi
      rcases List.mem_cons.mp hi with h | h
      · omega
      · have := hboundIds i h
        omega
  | opUpdateVersion vid p =>
      apply key _ hled
      exact ⟨hnd, fun i hi => lt_of_lt_of_le (hboundIds i hi) hmono⟩
  | opDeleteVersion vid =>
      apply key _ hled
      refine ⟨hnd.filter _, ?_⟩
      intro i hi
      exact lt_of_lt_of_le (hboundIds i (List.mem_of_mem_filter hi)) hmono
  | opDuplicateVersion vid now =>
      apply key _ hled
      cases hfind : s.1.find? (fun x => x.id == vid) with
      | none =>
          simp only [hfind, Option.isSome_none, Bool.false_eq_true, if_false]
          exact ⟨hnd, fun i hi => lt_of_lt_of_le (hboundIds i hi) hmono⟩
      | some v =>
          simp only [hfind, Option.isSome_some, if_true]
          have hgen : s.2 < (stepOp s (Op.opDuplicateVersion vid now)).2 := by
            simp only [stepOp, duplicateVersion, hfind]
            have h1 := (copyChanges_spec v.changes (s.2 + 1)).1
            have h2 := (copyBugs_spec v.bugs now (copyChanges v.changes (s.2 + 1)).2).1
            rw [h2, h1]
            omega
          refine ⟨List.nodup_cons.mpr
            ⟨fun hmem => absurd (hboundIds s.2 hmem) (by omega), hnd⟩, ?_⟩
          intro i hi
          rcases List.mem_cons.mp hi with h | h
          · omega
          · exact lt_of_lt_of_le (hboundIds i h) hmono
  | opAddChange vid ty tx =>
      apply key _ hled
      exact ⟨hnd, fun i hi => lt_of_lt_of_le (hboundIds i hi) hmono⟩
  | opRemoveChange vid cid =>
      apply key _ hled
      exact ⟨hnd, fun i hi => lt_of_lt_of_le (hboundIds i hi) hmono⟩
  | opAddBug vid pf now =>
      apply key _ hled
      exact ⟨hnd, fun i hi => lt_of_lt_of_le (hboundIds i hi) hmono⟩
  | opUpdateBug vid bid p now =>
      apply key _ hled
      exact ⟨hnd, fun i hi => lt_of_lt_of_le (hboundIds i hi) hmono⟩
  | opDeleteBug vid bid =>
      apply key _ hled
      exact ⟨hnd, fun i hi => lt_of_lt_of_le (hboundIds i hi) hmono⟩

/-- Claim C10 counterexample: updateVersion merges whatever fields the
patch carries, so a patch that sets the id field changes a version's id —
here making the two sample versions collide on id 1. -/
theorem C10_counterexample :
    (updateVersion sampleColl 0 { emptyVPatch with id := some 1 }).map Version.id
        ≠ sampleColl.map Version.id
  ∧ ¬ ((updateVersion sampleColl 0
        { emptyVPatch with id := some 1 }).map Version.id).Nodup := by
  decide

/-- Claim C10 as amended: for operation sequences whose updateVersion
patches do not set the id field (which is what every call site of the
program builds), every operation transforms the version-id ledger only by
keeping it, deleting the targeted id, or prepending a freshly generated
id — so every surviving version keeps its id — and, starting from a
collection with distinct ids all below the id counter, any sequence of
operations preserves distinctness (and boundedness) of the version ids. -/
theorem C10_version_ids_amended (s : Collection × Nat) (ops : List Op) (op : Op) :
    ((∀ o ∈ ops, goodOp o) → idInv s → idInv (runOps s ops))
  ∧ (goodOp op → idLedger s op) := by
  constructor
  · intro hops hinv
    induction ops generalizing s with
    | nil => exact hinv
    | cons o rest ih =>
        have h1 := stepOp_inv s o (hops o (by simp)) hinv
        exact ih (stepOp s o) (fun o2 ho2 => hops o2 (by simp [ho2])) h1
  · intro hg
    exact stepOp_ledger s op hg

/-- Witness for the amended C10: a concrete three-operation run on the
sample collection keeps the version ids distinct, and the delete step
removes exactly id 0 from the ledger. -/
theorem C10_version_ids_amended_witness :
    idInv (runOps (sampleColl, 100)
      [Op.opAddVersion 7, Op.opDeleteVersion 0,
       Op.opUpdateVersion 1 { emptyVPatch with label := some "v9.9.9" }])
  ∧ idLedger (sampleColl, 100) (Op.opDeleteVersion 0) := by
  have h := C10_version_ids_amended (sampleColl, 100)
    [Op.opAddVersion 7, Op.opDeleteVersion 0,
     Op.opUpdateVersion 1 { emptyVPatch with label := some "v9.9.9" }]
    (Op.opDeleteVersion 0)
  refine ⟨h.1 ?_ (by unfold idInv; exact ⟨by decide, by decide⟩), h.2 trivial⟩
  intro o ho
  fin_cases ho <;> trivial

end VersionTracker
